import Mathlib

set_option maxRecDepth 8000

/- Formal model of the CSV-import, auto-categorization, duplicate-filter and
   rule-learning core of the personal budgeting app (src/app.jsx).

   Modelling conventions:
   - JS strings are Lean strings; missing spreadsheet cells are `none`.
   - JS numbers are modelled as exact rationals (`Rat`); the JS `NaN` of a
     failed parse is `Option.none`.
   - Firestore collections are lists of records, in document order; the
     snapshot-derived rule table is an association list in iteration order.
   - Asynchronous awaits complete in program order (the code awaits every
     write before continuing), so the pipeline is modelled as a pure
     state-passing function over the persisted store. -/

/-- Numeric value of a list of decimal digit characters. -/
def digitsVal (l : List Char) : Nat :=
  l.foldl (fun acc c => acc * 10 + (c.toNat - 48)) 0

/-- Sign prefix of a JS numeric literal: returns (isNegative, rest). -/
def pfSign : List Char → Bool × List Char
  | '-' :: rest => (true, rest)
  | '+' :: rest => (false, rest)
  | l => (false, l)

/-- Exponent suffix of a JS parseFloat literal; an exponent with no digits
    is ignored (contributes 0), as JS stops parsing before the 'e'. -/
def pfExp (l : List Char) : Int :=
  let s := pfSign l
  let ds := s.2.takeWhile Char.isDigit
  if ds.isEmpty then 0
  else if s.1 then -(digitsVal ds : Int) else (digitsVal ds : Int)

/-- Model of the JS builtin parseFloat on ordinary decimal notation:
    leading whitespace is skipped, then an optional sign, integer digits,
    an optional fraction and an optional exponent are read, and trailing
    garbage is ignored; if no digit is read the result is NaN (`none`).
    (The special literal "Infinity" is not modelled; no caller in the
    program feeds it.)  The value is assembled as a single exact fraction
    numerator / 10^scale so that the definition evaluates inside the
    kernel. -/
def parseFloat (s : String) : Option Rat :=
  let l := s.toList.dropWhile Char.isWhitespace
  let sg := pfSign l
  let intDigits := sg.2.takeWhile Char.isDigit
  let l2 := sg.2.dropWhile Char.isDigit
  let fracDigits := match l2 with
    | '.' :: rest => rest.takeWhile Char.isDigit
    | _ => []
  let l3 := match l2 with
    | '.' :: rest => rest.dropWhile Char.isDigit
    | _ => l2
  if intDigits.isEmpty && fracDigits.isEmpty then none
  else
    let e : Int := match l3 with
      | 'e' :: rest => pfExp rest
      | 'E' :: rest => pfExp rest
      | _ => 0
    let mant : Nat := digitsVal intDigits * 10 ^ fracDigits.length + digitsVal fracDigits
    let num : Nat := if 0 ≤ e then mant * 10 ^ e.toNat else mant
    let den : Nat := if 0 ≤ e then 10 ^ fracDigits.length else 10 ^ fracDigits.length * 10 ^ (-e).toNat
    some (Rat.divInt (if sg.1 then -(num : Int) else (num : Int)) (den : Nat))

/-- Model of the JS String.prototype.trim used on descriptions and
    category names. -/
def jsTrim (s : String) : String :=
  String.mk (((s.toList.dropWhile Char.isWhitespace).reverse.dropWhile Char.isWhitespace).reverse)

/-- Model of the JS String.prototype.toLowerCase (ASCII case mapping). -/
def jsToLower (s : String) : String :=
  String.mk (s.toList.map Char.toLower)

/-- Checks that the first list is an initial segment of the second. -/
def prefixMatch : List Char → List Char → Bool
  | [], _ => true
  | _ :: _, [] => false
  | a :: as, b :: bs => a == b && prefixMatch as bs

/-- Substring occurrence of needle somewhere in hay. -/
def hasSub (needle : List Char) : List Char → Bool
  | [] => needle.isEmpty
  | b :: bs => prefixMatch needle (b :: bs) || hasSub needle bs

/-- Model of the JS String.prototype.includes(needle) used by the
    categorizer (plain substring matching, no word boundaries). -/
def strIncludes (hay needle : String) : Bool :=
  hasSub needle.toList hay.toList

/-- Model of String(amount).replace of every character other than digits,
    dot and minus by nothing (the regex [^0-9.-]+ with an empty
    replacement). -/
def cleanAmount (s : String) : String :=
  String.mk (s.toList.filter (fun c => c.isDigit || c == '.' || c == '-'))

/-- Modelled from date-fns: format(parseISO(date), 'yyyy-MM-dd').
    Restricted to plain calendar-date inputs: a well-formed YYYY-MM-DD
    string (digits in the right places, month 01-12, day 01-31) parses and
    reformats to itself; anything else makes parseISO return an invalid
    date, on which format throws, modelled as `none`.  (Other ISO forms
    such as date-times, and month-specific day bounds, are outside the
    modelled domain; no input in this development exercises them.) -/
def isoReformat (s : String) : Option String :=
  match s.toList with
  | [y1, y2, y3, y4, '-', m1, m2, '-', d1, d2] =>
    if y1.isDigit && y2.isDigit && y3.isDigit && y4.isDigit
        && m1.isDigit && m2.isDigit && d1.isDigit && d2.isDigit then
      if 1 ≤ digitsVal [m1, m2] ∧ digitsVal [m1, m2] ≤ 12
          ∧ 1 ≤ digitsVal [d1, d2] ∧ digitsVal [d1, d2] ≤ 31 then
        some s
      else none
    else none
  | _ => none

/-- One raw CSV record: the header cells the normalizer reads
    (src/app.jsx lines 153-166); a column absent from the file is `none`. -/
structure RawRow where
  date : Option String
  transactionDate : Option String
  postingDate : Option String
  description : Option String
  payee : Option String
  transactionDetails : Option String
  amountCol : Option String
  debit : Option String
  credit : Option String
deriving Repr, DecidableEq

/-- JS `a || b` on an optional string cell: an absent cell and the empty
    string are both falsy. -/
def strOr (a : Option String) (b : String) : String :=
  match a with
  | some s => if s = "" then b else s
  | none => b

/-- row['Date'] || row['Transaction Date'] || row['Posting Date'] || ''. -/
def rawDate (r : RawRow) : String :=
  strOr r.date (strOr r.transactionDate (strOr r.postingDate ""))

/-- row['Description'] || row['Payee'] || row['Transaction Details'] || ''. -/
def rawDescription (r : RawRow) : String :=
  strOr r.description (strOr r.payee (strOr r.transactionDetails ""))

/-- row['Amount'] || row['Debit'] || row['Credit'] || ''. -/
def rawAmountStr (r : RawRow) : String :=
  strOr r.amountCol (strOr r.debit (strOr r.credit ""))

/-- Fallback branch of amount resolution: clean the general amount field
    and parse it (src/app.jsx line 165); `none` is JS NaN. -/
def fallbackAmount (r : RawRow) : Option Rat :=
  parseFloat (cleanAmount (rawAmountStr r))

/-- else-if branch: row['Credit'] && parseFloat(row['Credit']) — the cell
    must be present, non-empty, and parse to a truthy (nonzero, non-NaN)
    number; then amount = +parseFloat(credit). -/
def creditOrFallback (r : RawRow) : Option Rat :=
  match r.credit with
  | some c =>
    if c = "" then fallbackAmount r
    else
      match parseFloat c with
      | some q => if q = 0 then fallbackAmount r else some q
      | none => fallbackAmount r
  | none => fallbackAmount r

/-- Amount resolution (src/app.jsx lines 159-166): if
    row['Debit'] && parseFloat(row['Debit']) is truthy the amount is the
    negated parsed debit; otherwise the credit branch, otherwise the
    cleaned general amount field.  `none` is JS NaN. -/
def resolvedAmount (r : RawRow) : Option Rat :=
  match r.debit with
  | some d =>
    if d = "" then creditOrFallback r
    else
      match parseFloat d with
      | some q => if q = 0 then creditOrFallback r else some (-q)
      | none => creditOrFallback r
  | none => creditOrFallback r

/-- The categorizer loop (src/app.jsx lines 169-176): scan the rule table
    in iteration order, first keyword contained in the lowercased
    description wins; the loop starts from 'Uncategorized'. -/
def catLoop (lower : String) : List (String × String) → String
  | [] => "Uncategorized"
  | kv :: rest => if strIncludes lower kv.1 then kv.2 else catLoop lower rest

/-- Auto-categorization of a description against the rule table. -/
def categorize (rules : List (String × String)) (description : String) : String :=
  catLoop (jsToLower description) rules

/-- The categorizer as the spec words it: the category of the first rule
    whose keyword occurs as a substring of the lowercased description,
    'Uncategorized' when no keyword matches. -/
def categorizeSpec (rules : List (String × String)) (description : String) : String :=
  match rules.find? (fun kv => strIncludes (jsToLower description) kv.1) with
  | some kv => kv.2
  | none => "Uncategorized"

/-- A normalized candidate transaction (the object built at src/app.jsx
    lines 178-184). -/
structure Tx where
  date : String
  description : String
  amount : Rat
  category : String
  originalRow : RawRow
deriving Repr, DecidableEq

/-- Row normalization (src/app.jsx lines 151-184).  The amount field is
    isNaN(amount) ? 0 : amount, i.e. a NaN resolution is replaced by 0.
    A non-empty date that is not ISO-parseable makes format() throw,
    modelled as `Except.error`; an empty date is passed through as ''. -/
def normalizeRow (rules : List (String × String)) (r : RawRow) : Except String Tx :=
  let date := rawDate r
  let description := rawDescription r
  let amount : Rat := (resolvedAmount r).getD 0
  let category := categorize rules description
  if date = "" then
    Except.ok ⟨"", jsTrim description, amount, category, r⟩
  else
    match isoReformat date with
    | some d => Except.ok ⟨d, jsTrim description, amount, category, r⟩
    | none => Except.error "Invalid time value"

/-- results.data.map(...) — the map over all parsed rows; a throw from any
    row aborts the whole map (and hence the import, before any write). -/
def normalizeAll (rules : List (String × String)) : List RawRow → Except String (List Tx)
  | [] => Except.ok []
  | r :: rest =>
    match normalizeRow rules r with
    | Except.error e => Except.error e
    | Except.ok t =>
      match normalizeAll rules rest with
      | Except.error e => Except.error e
      | Except.ok ts => Except.ok (t :: ts)

/-- The row filter .filter(tx => tx.description && !isNaN(tx.amount)).
    The amount conjunct is vacuously true: the record's amount was already
    defaulted to 0 when NaN, so only the empty-description test can drop a
    row. -/
def keepTx (t : Tx) : Bool :=
  t.description != ""

/-- A persisted transaction document ({...tx, userId} at src/app.jsx line
    215). -/
structure Doc where
  date : String
  description : String
  amount : Rat
  category : String
  originalRow : RawRow
  userId : String
deriving Repr, DecidableEq

/-- The document written for a candidate transaction tagged with the
    current owner. -/
def mkDoc (owner : String) (t : Tx) : Doc :=
  ⟨t.date, t.description, t.amount, t.category, t.originalRow, owner⟩

/-- Pad a digit string with leading zeros up to the given width. -/
def padZeros (s : String) (k : Nat) : String :=
  String.mk (List.replicate (k - s.toList.length) '0') ++ s

/-- Smallest power of ten the denominator divides (the amounts produced by
    parseFloat all have such denominators). -/
def decDenExp (den : Nat) : Option Nat :=
  (List.range 40).find? (fun k => 10 ^ k % den == 0)

/-- Model of JS number-to-string as used inside the template literal
    `${data.amount}`: integers print without a decimal point, finite
    decimals print with one (fraction in lowest terms, so no trailing
    zeros), negative values get a leading minus.  (JS scientific notation
    for magnitudes >= 1e21 is outside the modelled domain.)  A
    non-decimal rational falls back to a fraction rendering; parseFloat
    never produces one, so this case is never exercised. -/
def jsNumToString (q : Rat) : String :=
  let sign := if q.num < 0 then "-" else ""
  let a := q.num.natAbs
  if q.den = 1 then sign ++ Nat.repr a
  else
    match decDenExp q.den with
    | some k =>
      let scaled := a * (10 ^ k / q.den)
      sign ++ Nat.repr (scaled / 10 ^ k) ++ "." ++ padZeros (Nat.repr (scaled % 10 ^ k)) k
    | none => sign ++ Nat.repr a ++ "/" ++ Nat.repr q.den

/-- The duplicate-identity template literal
    `${date}-${description}-${amount}` (src/app.jsx lines 209 and 213). -/
def txIdent (date description : String) (amount : Rat) : String :=
  date ++ "-" ++ description ++ "-" ++ jsNumToString amount

/-- Identity string of a candidate transaction. -/
def candIdent (t : Tx) : String :=
  txIdent t.date t.description t.amount

/-- Identity string of a persisted document. -/
def docIdent (d : Doc) : String :=
  txIdent d.date d.description d.amount

/-- batch.map(t => t.date).filter((v, i, a) => a.indexOf(v) === i): keep
    each date's first occurrence (an element survives exactly when it is
    not among the ones already seen). -/
def jsUniqueAux (seen : List String) : List String → List String
  | [] => []
  | x :: xs => if seen.contains x then jsUniqueAux seen xs else x :: jsUniqueAux (x :: seen) xs

/-- The de-duplicated date list of a batch. -/
def jsUnique (l : List String) : List String :=
  jsUniqueAux [] l

/-- The duplicate query (src/app.jsx lines 201-210): persisted documents
    whose date is among the batch's distinct dates and whose userId is the
    current owner, rendered to their identity strings. -/
def existingIdents (store : List Doc) (owner : String) (dates : List String) : List String :=
  (store.filter (fun d => d.userId == owner && dates.contains d.date)).map docIdent

/-- The write loop over one batch (src/app.jsx lines 212-218): a candidate
    whose identity is in the existing set is silently skipped, any other is
    appended to the store and counted.  The existing set is NOT updated by
    writes within the batch. -/
def writeLoop (existing : List String) (owner : String) (acc : List Doc × Nat) : List Tx → List Doc × Nat
  | [] => acc
  | t :: rest =>
    if existing.contains (candIdent t) then writeLoop existing owner acc rest
    else writeLoop existing owner (acc.1 ++ [mkDoc owner t], acc.2 + 1) rest

/-- Duplicate filtering and writing of one batch against the current
    store; returns the new store and the number of documents written. -/
def writeBatch (store : List Doc) (owner : String) (batch : List Tx) : List Doc × Nat :=
  writeLoop (existingIdents store owner (jsUnique (batch.map Tx.date))) owner (store, 0) batch

/-- Fixed-size batching (batchSize = 50, src/app.jsx lines 190-197),
    written with an explicit fuel so that it evaluates in the kernel; the
    fuel is the list length, and every round consumes at least one
    element. -/
def chunkAux : Nat → List Tx → List (List Tx)
  | 0, _ => []
  | _, [] => []
  | fuel + 1, x :: xs => ((x :: xs).take 50) :: chunkAux fuel ((x :: xs).drop 50)

/-- The list of batches of 50 of the surviving candidates. -/
def chunk50 (l : List Tx) : List (List Tx) :=
  chunkAux l.length l

/-- The batch loop: batches are processed strictly in sequence, each
    seeing the store left by its predecessors; counts accumulate into
    savedCount. -/
def runBatches (store : List Doc) (owner : String) : List (List Tx) → List Doc × Nat
  | [] => (store, 0)
  | b :: bs =>
    let p := writeBatch store owner b
    let q := runBatches p.1 owner bs
    (q.1, p.2 + q.2)

/-- The import pipeline for one CSV upload (parseCsv's complete callback):
    normalize and categorize every row (a malformed non-empty date aborts
    everything before any write), filter out empty-description rows, then
    batch, duplicate-filter and write.  Returns the final store and the
    reported savedCount. -/
def runImport (store : List Doc) (owner : String) (rules : List (String × String))
    (rows : List RawRow) : Except String (List Doc × Nat) :=
  match normalizeAll rules rows with
  | Except.error e => Except.error e
  | Except.ok txs => Except.ok (runBatches store owner (chunk50 (txs.filter keepTx)))

/-- Character-splitting on a predicate, keeping empty segments, as JS
    String.prototype.split does. -/
def splitChar (p : Char → Bool) : List Char → List Char → List String
  | acc, [] => [String.mk acc.reverse]
  | acc, c :: cs =>
    if p c then String.mk acc.reverse :: splitChar p [] cs
    else splitChar p (c :: acc) cs

/-- Model of JS split(' '): split on single space characters; consecutive
    spaces yield empty segments. -/
def splitOnSpace (s : String) : List String :=
  splitChar (fun c => c == ' ') [] s.toList

/-- Splitting on arbitrary whitespace (used only to state the spec's
    notion of whitespace-separated tokens). -/
def splitWs (s : String) : List String :=
  splitChar Char.isWhitespace [] s.toList

/-- The whitespace-separated tokens of a string, as the spec words it:
    maximal nonempty runs between whitespace. -/
def wsTokens (s : String) : List String :=
  (splitWs s).filter (fun t => t != "")

/-- JS Array.prototype.join(sep). -/
def joinWith (sep : String) : List String → String
  | [] => ""
  | [x] => x
  | x :: y :: xs => x ++ sep ++ joinWith sep (y :: xs)

/-- The rule-learner keyword derivation (src/app.jsx lines 249-251):
    lowerDescription.split(' ').slice(0, 2).join(' '). -/
def deriveKeyword (description : String) : String :=
  joinWith " " ((splitOnSpace (jsToLower description)).take 2)

/-- A persisted rule document. -/
structure Rule where
  keyword : String
  category : String
  userId : String
deriving Repr, DecidableEq

/-- Lookup rules[keyword] in the in-memory rule table. -/
def rulesLookup (rules : List (String × String)) (k : String) : Option String :=
  match rules.find? (fun kv => kv.1 == k) with
  | some kv => some kv.2
  | none => none

/-- updateDoc on snapshot.docs[0]: replace the category of the first rule
    document matching (keyword, owner), leaving every other field and
    document unchanged. -/
def updateFirstRule (kc owner newCat : String) : List Rule → List Rule
  | [] => []
  | r :: rest =>
    if r.keyword == kc && r.userId == owner then ⟨r.keyword, newCat, r.userId⟩ :: rest
    else r :: updateFirstRule kc owner newCat rest

/-- The upsert of src/app.jsx lines 254-266: query the rule documents for
    (keyword == candidate, userId == owner); if the result is empty insert
    a fresh rule, otherwise update the first matching document in place. -/
def upsertRule (ruleDocs : List Rule) (owner kc newCategory : String) : List Rule :=
  if (ruleDocs.filter (fun r => r.keyword == kc && r.userId == owner)).isEmpty then
    ruleDocs ++ [⟨kc, newCategory, owner⟩]
  else updateFirstRule kc owner newCategory ruleDocs

/-- The rule learner triggered by a manual recategorization (src/app.jsx
    lines 248-267).  The transaction's category update itself is
    unconditional and not part of the rule store; this function returns
    the rule store after the learner ran.  The guard
    !rules[kc] || rules[kc] !== newCategory is modelled on the in-memory
    table (a stored category is never the empty string, so JS falsiness of
    rules[kc] coincides with its absence). -/
def ruleLearn (rulesMap : List (String × String)) (ruleDocs : List Rule)
    (owner description newCategory : String) : List Rule :=
  if newCategory = "Uncategorized" ∨ newCategory = "" then ruleDocs
  else
    let kc := deriveKeyword description
    if kc = "" then ruleDocs
    else
      match rulesLookup rulesMap kc with
      | none => upsertRule ruleDocs owner kc newCategory
      | some c0 => if c0 = newCategory then ruleDocs else upsertRule ruleDocs owner kc newCategory

/-- Number of rule documents for a given (owner, keyword) pair. -/
def ruleCount (ruleDocs : List Rule) (owner k : String) : Nat :=
  (ruleDocs.filter (fun r => r.userId == owner && r.keyword == k)).length

/-- handleAddCategory (src/app.jsx lines 277-292) with the session ready:
    `none` when the submission is rejected before any persistence call
    (blank after trimming, or equal to an existing name case-
    insensitively), otherwise the store with the trimmed name appended. -/
def handleAddCategory (categories : List String) (newCategoryName : String) : Option (List String) :=
  if jsTrim newCategoryName = "" then none
  else if categories.any (fun c => jsToLower c == jsToLower (jsTrim newCategoryName)) then none
  else some (categories ++ [jsTrim newCategoryName])

/-- A candidate transaction is covered when some document of the store,
    owned by the owner and dated inside the given date set, has the same
    identity string. -/
def coverTx (s : List Doc) (owner : String) (dates : List String) (t : Tx) : Prop :=
  ∃ d, d ∈ s ∧ d.userId = owner ∧ d.date ∈ dates ∧ docIdent d = candIdent t

/-- Every candidate of a batch is covered by the store, relative to the
    batch's own date set. -/
def coveredBy (s : List Doc) (owner : String) (b : List Tx) : Prop :=
  ∀ t ∈ b, coverTx s owner (b.map Tx.date) t

/-- A raw row with every cell absent (used as the stored original row of a
    hand-written persisted document). -/
def noRow : RawRow :=
  ⟨none, none, none, none, none, none, none, none, none⟩

/-- Concrete row whose amount cell is unparseable (NaN). -/
def r2c : RawRow :=
  ⟨none, none, none, some "x", none, none, some "abc", none, none⟩

/-- Concrete row with Debit "0" and a conflicting Amount column. -/
def r3c : RawRow :=
  ⟨none, none, none, some "x", none, none, some "5", some "0", none⟩

/-- The spec's own example row: Whole Foods, Debit 42.17. -/
def r3w : RawRow :=
  ⟨some "2024-01-05", none, none, some " Whole Foods Market ", none, none, none, some "42.17", none⟩

/-- Concrete well-formed row (used around the malformed-date row). -/
def r5g : RawRow :=
  ⟨some "2024-01-05", none, none, some "a", none, none, some "1", none, none⟩

/-- Concrete row with a non-empty date that is not ISO-parseable. -/
def r5b : RawRow :=
  ⟨some "bad-date", none, none, some "b", none, none, some "2", none, none⟩

/-- Concrete row imported twice in one file for the same-batch duplicate
    observation. -/
def r9 : RawRow :=
  ⟨some "2024-01-05", none, none, some "dup", none, none, some "1", none, none⟩

/-- Concrete row whose candidate (date "2024-01-01", description "a",
    amount -1) collides, as an identity string, with a persisted document
    (same date, description "a-", amount 1). -/
def r10 : RawRow :=
  ⟨some "2024-01-01", none, none, some "a", none, none, none, some "1", none⟩

/-- Concrete row used by the idempotence witness. -/
def r1w : RawRow :=
  ⟨some "2024-01-05", none, none, some "groceries", none, none, some "3", none, none⟩


/- ------------------------------------------------------------------ -/
/- Helper lemmas                                                       -/
/- ------------------------------------------------------------------ -/

theorem containsIffMem {l : List String} {x : String} : l.contains x = true ↔ x ∈ l :=
  List.elem_iff

theorem normalizeRow_ok_amount {rules : List (String × String)} {r : RawRow} {t : Tx}
    (h : normalizeRow rules r = Except.ok t) : t.amount = (resolvedAmount r).getD 0 := by
  simp only [normalizeRow] at h
  split at h
  · injection h with h
    subst h
    rfl
  · split at h
    · injection h with h
      subst h
      rfl
    · exact Except.noConfusion h

theorem catLoop_eq_spec (lower : String) :
    ∀ rules : List (String × String),
      catLoop lower rules
        = (match rules.find? (fun kv => strIncludes lower kv.1) with
            | some kv => kv.2
            | none => "Uncategorized") := by
  intro rules
  induction rules with
  | nil => rfl
  | cons kv rest ih =>
    cases h : strIncludes lower kv.1 with
    | true => simp [catLoop, List.find?, h]
    | false => simp [catLoop, List.find?, h, ih]

/-- C4: the categorizer lowercases the description, scans the rule table in
    its iteration (insertion) order, assigns the category of the first
    keyword occurring as a substring of the lowercased description, and
    falls back to "Uncategorized"; matching is plain substring matching, so
    keyword "gas" matches description "Vegas". -/
theorem categorizerFirstMatch :
    (∀ (rules : List (String × String)) (description : String),
        categorize rules description = categorizeSpec rules description)
    ∧ categorize [("gas", "Fuel")] "Vegas" = "Fuel"
    ∧ categorize [("coffee", "Dining"), ("starbucks coffee", "Treats")] "Starbucks Coffee Purchase" = "Dining"
    ∧ categorize [] "anything" = "Uncategorized" := by
  refine ⟨?_, by decide, by decide, by decide⟩
  intro rules description
  unfold categorize categorizeSpec
  exact catLoop_eq_spec (jsToLower description) rules

/-- C8: adding a category is rejected, with the stored set unchanged and no
    persistence call, exactly when the submitted name is blank after
    trimming or case-insensitively equal to an existing name of the same
    owner; otherwise the trimmed name is appended. -/
theorem addCategoryValidation (categories : List String) (name : String) :
    (handleAddCategory categories name = none ↔
      jsTrim name = "" ∨ ∃ c ∈ categories, jsToLower c = jsToLower (jsTrim name))
    ∧ (∀ res, handleAddCategory categories name = some res → res = categories ++ [jsTrim name]) := by
  unfold handleAddCategory
  by_cases h1 : jsTrim name = ""
  · simp [h1]
  · by_cases h2 : categories.any (fun c => jsToLower c == jsToLower (jsTrim name)) = true
    · rw [if_neg h1, if_pos h2]
      constructor
      · simp only [true_iff]
        right
        simpa [List.any_eq_true, beq_iff_eq] using h2
      · intro res hres
        exact Option.noConfusion hres
    · rw [if_neg h1, if_neg h2]
      constructor
      · constructor
        · intro hres
          exact Option.noConfusion hres
        · intro hor
          cases hor with
          | inl h => exact absurd h h1
          | inr h =>
            exfalso
            apply h2
            rw [List.any_eq_true]
            obtain ⟨c, hc, he⟩ := h
            exact ⟨c, hc, by simpa [beq_iff_eq] using he⟩
      · intro res hres
        injection hres with hres
        exact hres.symm

/-- C8 witness: a fresh, clean name is appended trimmed. -/
theorem addCategoryValidation_witness :
    handleAddCategory ["Food"] " Auto " = some ["Food", "Auto"]
    ∧ ["Food", "Auto"] = ["Food"] ++ [jsTrim " Auto "] :=
  ⟨rfl, (addCategoryValidation ["Food"] " Auto ").2 ["Food", "Auto"] rfl⟩

/-- C2 counterexample: a row whose amount cell is unparseable (NaN after
    cleaning and parsing) is NOT dropped — it is normalized with amount 0
    and written. -/
theorem nanRowWritten_cex :
    resolvedAmount r2c = none
    ∧ runImport [] "u" [] [r2c]
        = Except.ok ([⟨"", "x", 0, "Uncategorized", r2c, "u"⟩], 1) :=
  ⟨rfl, rfl⟩

/-- C2 (amended): a row whose resolved amount is NaN is kept, not
    rejected: normalization replaces the NaN by 0 before the filter runs,
    and the filter keeps the row whenever its trimmed description is
    non-empty (the NaN test in the filter is vacuous). -/
theorem nanAmountKept {rules : List (String × String)} {r : RawRow} {t : Tx}
    (h : normalizeRow rules r = Except.ok t) (hnan : resolvedAmount r = none) :
    t.amount = 0 ∧ (t.description ≠ "" → keepTx t = true) := by
  have ha := normalizeRow_ok_amount h
  rw [hnan] at ha
  refine ⟨ha, ?_⟩
  intro hd
  simpa [keepTx, bne_iff_ne] using hd

/-- C2 witness: the theorem applied to the concrete NaN-amount row. -/
theorem nanAmountKept_witness :
    (normalizeRow [] r2c = Except.ok ⟨"", "x", 0, "Uncategorized", r2c⟩
      ∧ resolvedAmount r2c = none)
    ∧ ((⟨"", "x", 0, "Uncategorized", r2c⟩ : Tx).amount = 0
      ∧ ((⟨"", "x", 0, "Uncategorized", r2c⟩ : Tx).description ≠ ""
          → keepTx ⟨"", "x", 0, "Uncategorized", r2c⟩ = true)) :=
  ⟨⟨rfl, rfl⟩, @nanAmountKept [] r2c ⟨"", "x", 0, "Uncategorized", r2c⟩ rfl rfl⟩

/-- C3 counterexample: Debit "0" is non-empty and parseable as a number,
    yet the normalized amount is taken from the Amount column (5), not
    from the negated debit (-0 = 0): the JS truthiness test
    parseFloat(row.Debit) fails on a zero debit. -/
theorem debitZero_cex :
    r3c.debit = some "0" ∧ parseFloat "0" = some 0
    ∧ resolvedAmount r3c = some 5
    ∧ (some (5 : Rat) : Option Rat) ≠ some (-(0 : Rat)) :=
  ⟨rfl, rfl, rfl, by decide⟩

/-- C3 (amended): for every raw row whose Debit cell parses to a NONZERO
    number, the normalized amount is the negation of that number,
    regardless of any Amount (or Credit) column also present; a debit
    parsing to zero instead falls through to the general amount field. -/
theorem debitNegation {r : RawRow} {d : String} {q : Rat}
    (h1 : r.debit = some d) (h2 : d ≠ "") (h3 : parseFloat d = some q) (h4 : q ≠ 0) :
    resolvedAmount r = some (-q)
    ∧ ∀ rules t, normalizeRow rules r = Except.ok t → t.amount = -q := by
  have hra : resolvedAmount r = some (-q) := by
    unfold resolvedAmount
    rw [h1]
    simp [h2, h3, h4]
  refine ⟨hra, ?_⟩
  intro rules t ht
  rw [normalizeRow_ok_amount ht, hra]
  rfl

/-- C3 witness: the spec's Whole Foods example row, Debit "42.17",
    normalizes to amount -42.17 with the date reformatted and the
    description trimmed. -/
theorem debitNegation_witness :
    (r3w.debit = some "42.17" ∧ parseFloat "42.17" = some (Rat.divInt 4217 100)
      ∧ Rat.divInt 4217 100 ≠ 0)
    ∧ resolvedAmount r3w = some (-(Rat.divInt 4217 100))
    ∧ normalizeRow [] r3w
        = Except.ok ⟨"2024-01-05", "Whole Foods Market", -(Rat.divInt 4217 100), "Uncategorized", r3w⟩ :=
  ⟨⟨rfl, rfl, by decide⟩,
    (@debitNegation r3w "42.17" (Rat.divInt 4217 100) rfl (by decide) rfl (by decide)).1,
    rfl⟩

/-- C5 counterexample: one row with a non-empty, non-ISO-parseable date
    aborts the whole import — the well-formed row of the same file is not
    written either — while the same good row alone imports fine. -/
theorem badDateAborts_cex :
    runImport [] "u" [] [r5g, r5b] = Except.error "Invalid time value"
    ∧ runImport [] "u" [] [r5g]
        = Except.ok ([⟨"2024-01-05", "a", 1, "Uncategorized", r5g, "u"⟩], 1) :=
  ⟨rfl, rfl⟩

/-- C5 (amended): an import containing any row with a non-empty date that
    is not ISO-parseable aborts as a whole with an error before any write;
    no row of the file is normalized into the store. -/
theorem badDateAbortsImport {store : List Doc} {owner : String}
    {rules : List (String × String)} {rows : List RawRow} {r : RawRow}
    (hr : r ∈ rows) (h1 : rawDate r ≠ "") (h2 : isoReformat (rawDate r) = none) :
    ∃ e, runImport store owner rules rows = Except.error e := by
  have herr : normalizeRow rules r = Except.error "Invalid time value" := by
    simp only [normalizeRow]
    rw [if_neg h1, h2]
  have hall : ∃ e, normalizeAll rules rows = Except.error e := by
    induction rows with
    | nil => cases hr
    | cons r0 rest ih =>
      cases hr with
      | head =>
        exact ⟨"Invalid time value", by unfold normalizeAll; rw [herr]⟩
      | tail _ hmem =>
        obtain ⟨e, he⟩ := ih hmem
        cases hnr : normalizeRow rules r0 with
        | error e0 => exact ⟨e0, by unfold normalizeAll; rw [hnr]⟩
        | ok t => exact ⟨e, by unfold normalizeAll; rw [hnr, he]⟩
  obtain ⟨e, he⟩ := hall
  exact ⟨e, by unfold runImport; rw [he]⟩

/-- C5 witness: the theorem applied to the concrete malformed-date row. -/
theorem badDateAbortsImport_witness :
    (rawDate r5b ≠ "" ∧ isoReformat (rawDate r5b) = none)
    ∧ ∃ e, runImport [] "u" [] [r5b] = Except.error e :=
  ⟨⟨by decide, rfl⟩,
    badDateAbortsImport (List.mem_singleton.mpr rfl) (by decide) rfl⟩

theorem splitChar_congr (p q : Char → Bool) :
    ∀ (cs acc : List Char), (∀ c ∈ cs, p c = q c) → splitChar p acc cs = splitChar q acc cs := by
  intro cs
  induction cs with
  | nil => intro acc _; rfl
  | cons c rest ih =>
    intro acc hagree
    have hc : p c = q c := hagree c (List.mem_cons_self c rest)
    have hrest : ∀ x ∈ rest, p x = q x := fun x hx => hagree x (List.mem_cons_of_mem c hx)
    unfold splitChar
    rw [← hc]
    cases hpc : p c with
    | true => simp only [if_pos]; rw [ih [] hrest]
    | false => simp only [if_neg, Bool.false_eq_true, not_false_iff]; rw [ih (c :: acc) hrest]

/-- C6 counterexample: with two consecutive spaces in the description the
    learner's keyword is the first two split-on-space SEGMENTS joined —
    "shell " with a trailing space and an empty second segment — not the
    first two whitespace-separated tokens "shell gas" the claim states;
    the learned rule records that keyword verbatim. -/
theorem keywordDoubleSpace_cex :
    ruleLearn [] [] "u" "Shell  Gas Station" "Auto" = [⟨"shell ", "Auto", "u"⟩]
    ∧ joinWith " " ((wsTokens (jsToLower "Shell  Gas Station")).take 2) = "shell gas"
    ∧ ("shell " : String) ≠ "shell gas" :=
  ⟨rfl, rfl, by decide⟩

/-- C6 (amended): the derived keyword is the first two segments of the
    lowercased description split on single space characters, joined by one
    space; when every split segment is nonempty and the only whitespace in
    the lowercased description is the plain space (single-space-separated
    words, as in the spec's example), this coincides with the first two
    whitespace-separated tokens joined by a space, e.g. "Shell Gas
    Station" with a new category yields keyword "shell gas". -/
theorem deriveKeywordTokens {d : String}
    (hall : ∀ t ∈ splitOnSpace (jsToLower d), t ≠ "")
    (hws : ∀ c ∈ (jsToLower d).toList, c.isWhitespace = true → c = ' ') :
    deriveKeyword d = joinWith " " ((wsTokens (jsToLower d)).take 2)
    ∧ deriveKeyword "Shell Gas Station" = "shell gas" := by
  refine ⟨?_, rfl⟩
  have hagree : ∀ c ∈ (jsToLower d).toList, Char.isWhitespace c = (c == ' ') := by
    intro c hc
    by_cases hsp : c = ' '
    · subst hsp; rfl
    · rw [beq_eq_false_iff_ne.mpr hsp]
      cases hwc : c.isWhitespace with
      | false => rfl
      | true => exact absurd (hws c hc hwc) hsp
  have hsplit : splitWs (jsToLower d) = splitOnSpace (jsToLower d) := by
    unfold splitWs splitOnSpace
    exact splitChar_congr _ _ _ [] hagree
  have hfilter : wsTokens (jsToLower d) = splitOnSpace (jsToLower d) := by
    unfold wsTokens
    rw [hsplit]
    exact List.filter_eq_self.mpr (fun t ht => by simpa [bne_iff_ne] using hall t ht)
  rw [hfilter]
  rfl

/-- C6 witness: the theorem applied to the spec's own single-spaced
    example description. -/
theorem deriveKeywordTokens_witness :
    (∀ t ∈ splitOnSpace (jsToLower "Shell Gas Station"), t ≠ "")
    ∧ deriveKeyword "Shell Gas Station"
        = joinWith " " ((wsTokens (jsToLower "Shell Gas Station")).take 2) :=
  ⟨by decide, (@deriveKeywordTokens "Shell Gas Station" (by decide) (by decide)).1⟩

theorem updateFirstRule_length (kc o c : String) :
    ∀ s : List Rule, (updateFirstRule kc o c s).length = s.length := by
  intro s
  induction s with
  | nil => rfl
  | cons r rest ih =>
    unfold updateFirstRule
    cases h : (r.keyword == kc && r.userId == o) with
    | true => simp
    | false => simp [ih]

theorem updateFirstRule_count (kc o c ow k : String) :
    ∀ s : List Rule, ruleCount (updateFirstRule kc o c s) ow k = ruleCount s ow k := by
  intro s
  induction s with
  | nil => rfl
  | cons r rest ih =>
    unfold updateFirstRule
    cases h : (r.keyword == kc && r.userId == o) with
    | true =>
      simp only [if_pos]
      unfold ruleCount
      rw [List.filter_cons, List.filter_cons]
      have hsame : ((⟨r.keyword, c, r.userId⟩ : Rule).userId == ow
          && (⟨r.keyword, c, r.userId⟩ : Rule).keyword == k)
          = (r.userId == ow && r.keyword == k) := rfl
      rw [hsame]
      cases h2 : (r.userId == ow && r.keyword == k) <;> simp
    | false =>
      simp only [Bool.false_eq_true, if_neg, not_false_iff]
      unfold ruleCount at ih ⊢
      rw [List.filter_cons, List.filter_cons]
      cases h2 : (r.userId == ow && r.keyword == k) <;> simp [ih]

theorem upsertRule_count {s : List Rule} {o kc c ow k : String}
    (h : ruleCount s ow k ≤ 1) : ruleCount (upsertRule s o kc c) ow k ≤ 1 := by
  unfold upsertRule
  by_cases he : (s.filter (fun r => r.keyword == kc && r.userId == o)).isEmpty = true
  · rw [if_pos he]
    unfold ruleCount at h ⊢
    rw [List.filter_append, List.length_append]
    cases hm : ((⟨kc, c, o⟩ : Rule).userId == ow && (⟨kc, c, o⟩ : Rule).keyword == k) with
    | false =>
      have hnil : List.filter (fun r => r.userId == ow && r.keyword == k) [(⟨kc, c, o⟩ : Rule)] = [] := by
        simp [hm]
      rw [hnil]
      simpa using h
    | true =>
      have hok : o = ow ∧ kc = k := by
        have hmm := hm
        simp only [Bool.and_eq_true, beq_iff_eq] at hmm
        exact hmm
      obtain ⟨h1, h2⟩ := hok
      subst h1; subst h2
      have h0 : s.filter (fun r => r.userId == o && r.keyword == kc) = [] := by
        rw [List.isEmpty_iff] at he
        have hcongr : s.filter (fun r => r.userId == o && r.keyword == kc)
            = s.filter (fun r => r.keyword == kc && r.userId == o) :=
          List.filter_congr (fun r _ => Bool.and_comm (r.userId == o) (r.keyword == kc))
        rw [hcongr, he]
      simp [h0, hm]
  · rw [if_neg he]
    rw [updateFirstRule_count]
    exact h

/-- C7: the rule learner preserves the at-most-one-rule-per-(owner,
    keyword) invariant — it inserts a fresh rule only when its query for
    (owner, keyword) comes back empty, and otherwise updates the first
    matching rule document in place, leaving the store's size unchanged. -/
theorem ruleLearnerAtMostOne (rulesMap : List (String × String)) (ruleDocs : List Rule)
    (owner description newCategory ow k : String)
    (h : ruleCount ruleDocs ow k ≤ 1) :
    ruleCount (ruleLearn rulesMap ruleDocs owner description newCategory) ow k ≤ 1
    ∧ ((ruleDocs.filter (fun r => r.keyword == deriveKeyword description && r.userId == owner)).isEmpty = false
        → (ruleLearn rulesMap ruleDocs owner description newCategory).length = ruleDocs.length) := by
  unfold ruleLearn
  by_cases hc : newCategory = "Uncategorized" ∨ newCategory = ""
  · rw [if_pos hc]
    exact ⟨h, fun _ => rfl⟩
  · rw [if_neg hc]
    by_cases hkc : deriveKeyword description = ""
    · rw [if_pos hkc]
      exact ⟨h, fun _ => rfl⟩
    · rw [if_neg hkc]
      have hups : ruleCount (upsertRule ruleDocs owner (deriveKeyword description) newCategory) ow k ≤ 1 :=
        upsertRule_count h
      have hlen : (ruleDocs.filter (fun r => r.keyword == deriveKeyword description && r.userId == owner)).isEmpty = false
          → (upsertRule ruleDocs owner (deriveKeyword description) newCategory).length = ruleDocs.length := by
        intro hne
        unfold upsertRule
        rw [if_neg (by rw [hne]; exact Bool.false_ne_true)]
        exact updateFirstRule_length _ _ _ _
      constructor
      · split
        · exact hups
        · split
          · exact h
          · exact hups
      · intro hne
        split
        · exact hlen hne
        · split
          · rfl
          · exact hlen hne

/-- C7 witness: recategorizing the Shell transaction to Auto against a
    store already holding a rule for (u, "shell gas") updates it in place:
    the count stays at most one and the store size is unchanged. -/
theorem ruleLearnerAtMostOne_witness :
    ruleCount [⟨"shell gas", "Dining", "u"⟩] "u" "shell gas" ≤ 1
    ∧ ruleCount (ruleLearn [("shell gas", "Dining")] [⟨"shell gas", "Dining", "u"⟩]
        "u" "Shell Gas Station" "Auto") "u" "shell gas" ≤ 1 :=
  ⟨by decide,
    (ruleLearnerAtMostOne [("shell gas", "Dining")] [⟨"shell gas", "Dining", "u"⟩]
      "u" "Shell Gas Station" "Auto" "u" "shell gas" (by decide)).1⟩

/-- C9: two rows of the same file normalizing to the identical (date,
    description, amount) triple land in the same batch of 50 and are BOTH
    written: the duplicate filter's set of existing identity strings is
    built from the persisted store once, before the batch's writes, and is
    not updated by them. -/
theorem sameBatchDuplicatesWritten :
    runImport [] "u" [] [r9, r9]
      = Except.ok ([⟨"2024-01-05", "dup", 1, "Uncategorized", r9, "u"⟩,
                    ⟨"2024-01-05", "dup", 1, "Uncategorized", r9, "u"⟩], 2) :=
  rfl

/-- C10: the identity string joins date, description and amount with '-',
    which can also occur inside the description or as the sign of the
    amount, so two genuinely different transactions can share an identity;
    a candidate (date 2024-01-01, description "a", amount -1) that matches
    no persisted transaction is silently skipped because a persisted
    document (same date, description "a-", amount 1) renders to the same
    string. -/
theorem identCollisionSkips :
    txIdent "2024-01-01" "a-" 1 = txIdent "2024-01-01" "a" (-1)
    ∧ (("a-", (1 : Rat)) : String × Rat) ≠ ("a", (-1 : Rat))
    ∧ runImport [⟨"2024-01-01", "a-", 1, "Income", noRow, "u"⟩] "u" [] [r10]
        = Except.ok ([⟨"2024-01-01", "a-", 1, "Income", noRow, "u"⟩], 0) :=
  ⟨rfl, by decide, rfl⟩

theorem mem_jsUniqueAux :
    ∀ (l seen : List String) (x : String), x ∈ jsUniqueAux seen l ↔ x ∈ l ∧ x ∉ seen := by
  intro l
  induction l with
  | nil => intro seen x; simp [jsUniqueAux]
  | cons y ys ih =>
    intro seen x
    by_cases hy : y ∈ seen
    · have hct : seen.contains y = true := containsIffMem.mpr hy
      unfold jsUniqueAux
      rw [if_pos hct, ih]
      simp only [List.mem_cons]
      constructor
      · rintro ⟨hx, hns⟩
        exact ⟨Or.inr hx, hns⟩
      · rintro ⟨hx, hns⟩
        rcases hx with h | h
        · exact absurd (h ▸ hy) hns
        · exact ⟨h, hns⟩
    · have hcf : ¬seen.contains y = true := fun hcc => hy (containsIffMem.mp hcc)
      unfold jsUniqueAux
      rw [if_neg hcf]
      simp only [List.mem_cons]
      by_cases hxy : x = y
      · subst hxy
        constructor
        · intro _
          exact ⟨Or.inl rfl, hy⟩
        · intro _
          exact Or.inl rfl
      · constructor
        · intro hmem
          rcases hmem with h | h
          · exact absurd h hxy
          · obtain ⟨hx, hns⟩ := (ih (y :: seen) x).mp h
            exact ⟨Or.inr hx, fun hs => hns (List.mem_cons_of_mem _ hs)⟩
        · rintro ⟨hx, hns⟩
          rcases hx with h | h
          · exact absurd h hxy
          · refine Or.inr ((ih (y :: seen) x).mpr ⟨h, fun hmem => ?_⟩)
            rcases List.mem_cons.mp hmem with h2 | h2
            · exact hxy h2
            · exact hns h2

theorem existingIdents_mem {store : List Doc} {owner : String} {dates : List String} {str : String} :
    str ∈ existingIdents store owner dates ↔
      ∃ d, d ∈ store ∧ d.userId = owner ∧ d.date ∈ dates ∧ docIdent d = str := by
  unfold existingIdents
  rw [List.mem_map]
  constructor
  · rintro ⟨d, hd, hid⟩
    rw [List.mem_filter] at hd
    obtain ⟨hmem, hpred⟩ := hd
    simp only [Bool.and_eq_true, beq_iff_eq] at hpred
    exact ⟨d, hmem, hpred.1, containsIffMem.mp hpred.2, hid⟩
  · rintro ⟨d, hmem, hu, hdt, hid⟩
    refine ⟨d, ?_, hid⟩
    rw [List.mem_filter]
    refine ⟨hmem, ?_⟩
    simp only [Bool.and_eq_true, beq_iff_eq]
    exact ⟨hu, containsIffMem.mpr hdt⟩

theorem writeLoop_mono (existing : List String) (owner : String) :
    ∀ (b : List Tx) (acc : List Doc × Nat) (d : Doc),
      d ∈ acc.1 → d ∈ (writeLoop existing owner acc b).1 := by
  intro b
  induction b with
  | nil => intro acc d hd; exact hd
  | cons t rest ih =>
    intro acc d hd
    unfold writeLoop
    by_cases hc : existing.contains (candIdent t) = true
    · rw [if_pos hc]
      exact ih acc d hd
    · rw [if_neg hc]
      exact ih _ d (List.mem_append_left _ hd)

theorem writeLoop_cover (existing : List String) (owner : String) (dates : List String) :
    ∀ (b : List Tx) (acc : List Doc × Nat),
      (∀ str ∈ existing, ∃ d, d ∈ acc.1 ∧ d.userId = owner ∧ d.date ∈ dates ∧ docIdent d = str) →
      (∀ t ∈ b, t.date ∈ dates) →
      ∀ t ∈ b, coverTx (writeLoop existing owner acc b).1 owner dates t := by
  intro b
  induction b with
  | nil => intro acc _ _ t ht; cases ht
  | cons t0 rest ih =>
    intro acc hex hdates t ht
    unfold writeLoop
    by_cases hc : existing.contains (candIdent t0) = true
    · rw [if_pos hc]
      rcases List.mem_cons.mp ht with h | h
      · subst h
        obtain ⟨d, hd, hu, hdt, hid⟩ := hex (candIdent t) (containsIffMem.mp hc)
        exact ⟨d, writeLoop_mono existing owner rest acc d hd, hu, hdt, hid⟩
      · exact ih acc hex (fun t2 ht2 => hdates t2 (List.mem_cons_of_mem _ ht2)) t h
    · rw [if_neg hc]
      rcases List.mem_cons.mp ht with h | h
      · subst h
        refine ⟨mkDoc owner t, ?_, rfl, hdates t (List.mem_cons_self _ _), rfl⟩
        exact writeLoop_mono existing owner rest _ _
          (List.mem_append_right _ (List.mem_singleton.mpr rfl))
      · apply ih _ ?_ (fun t2 ht2 => hdates t2 (List.mem_cons_of_mem _ ht2)) t h
        intro str hstr
        obtain ⟨d, hd, hu, hdt, hid⟩ := hex str hstr
        exact ⟨d, List.mem_append_left _ hd, hu, hdt, hid⟩

theorem writeLoop_skipAll (existing : List String) (owner : String) :
    ∀ (b : List Tx) (acc : List Doc × Nat),
      (∀ t ∈ b, existing.contains (candIdent t) = true) →
      writeLoop existing owner acc b = acc := by
  intro b
  induction b with
  | nil => intro acc _; rfl
  | cons t rest ih =>
    intro acc hall
    unfold writeLoop
    rw [if_pos (hall t (List.mem_cons_self _ _))]
    exact ih acc (fun t2 ht2 => hall t2 (List.mem_cons_of_mem _ ht2))

theorem writeBatch_mono {store : List Doc} {owner : String} {b : List Tx} {d : Doc}
    (hd : d ∈ store) : d ∈ (writeBatch store owner b).1 :=
  writeLoop_mono _ owner b (store, 0) d hd

theorem writeBatch_cover (store : List Doc) (owner : String) (b : List Tx) :
    coveredBy (writeBatch store owner b).1 owner b := by
  intro t ht
  unfold writeBatch
  apply writeLoop_cover _ owner _ b (store, 0) ?_ ?_ t ht
  · intro str hstr
    obtain ⟨d, hd, hu, hdt, hid⟩ := existingIdents_mem.mp hstr
    have hdt2 : d.date ∈ b.map Tx.date :=
      ((mem_jsUniqueAux (b.map Tx.date) [] d.date).mp hdt).1
    exact ⟨d, hd, hu, hdt2, hid⟩
  · intro t2 ht2
    exact List.mem_map_of_mem Tx.date ht2

theorem writeBatch_skip {store : List Doc} {owner : String} {b : List Tx}
    (hcov : coveredBy store owner b) : writeBatch store owner b = (store, 0) := by
  unfold writeBatch
  apply writeLoop_skipAll
  intro t ht
  obtain ⟨d, hd, hu, hdt, hid⟩ := hcov t ht
  apply containsIffMem.mpr
  rw [← hid]
  apply existingIdents_mem.mpr
  refine ⟨d, hd, hu, ?_, rfl⟩
  exact (mem_jsUniqueAux (b.map Tx.date) [] d.date).mpr ⟨hdt, List.not_mem_nil _⟩

theorem coveredBy_mono {s s2 : List Doc} {owner : String} {b : List Tx}
    (hsub : ∀ d ∈ s, d ∈ s2) (h : coveredBy s owner b) : coveredBy s2 owner b := by
  intro t ht
  obtain ⟨d, hd, hu, hdt, hid⟩ := h t ht
  exact ⟨d, hsub d hd, hu, hdt, hid⟩

theorem runBatches_cons (store : List Doc) (owner : String) (b : List Tx) (bs : List (List Tx)) :
    runBatches store owner (b :: bs)
      = ((runBatches (writeBatch store owner b).1 owner bs).1,
         (writeBatch store owner b).2 + (runBatches (writeBatch store owner b).1 owner bs).2) :=
  rfl

theorem runBatches_mono (owner : String) :
    ∀ (bs : List (List Tx)) (store : List Doc) (d : Doc),
      d ∈ store → d ∈ (runBatches store owner bs).1 := by
  intro bs
  induction bs with
  | nil => intro store d hd; exact hd
  | cons b rest ih =>
    intro store d hd
    show d ∈ (runBatches (writeBatch store owner b).1 owner rest).1
    exact ih _ d (writeBatch_mono hd)

theorem runBatches_cover (owner : String) :
    ∀ (bs : List (List Tx)) (store : List Doc) (b : List Tx),
      b ∈ bs → coveredBy (runBatches store owner bs).1 owner b := by
  intro bs
  induction bs with
  | nil => intro store b hb; cases hb
  | cons b0 rest ih =>
    intro store b hb
    rcases List.mem_cons.mp hb with h | h
    · subst h
      have h1 : coveredBy (writeBatch store owner b).1 owner b := writeBatch_cover store owner b
      have h2 : ∀ d ∈ (writeBatch store owner b).1,
          d ∈ (runBatches (writeBatch store owner b).1 owner rest).1 :=
        fun d hd => runBatches_mono owner rest _ d hd
      exact coveredBy_mono h2 h1
    · exact ih (writeBatch store owner b0).1 b h

theorem runBatches_zero (owner : String) :
    ∀ (bs : List (List Tx)) (store : List Doc),
      (∀ b ∈ bs, coveredBy store owner b) → runBatches store owner bs = (store, 0) := by
  intro bs
  induction bs with
  | nil => intro store _; rfl
  | cons b rest ih =>
    intro store hall
    have h1 : writeBatch store owner b = (store, 0) :=
      writeBatch_skip (hall b (List.mem_cons_self _ _))
    have h2 : runBatches store owner rest = (store, 0) :=
      ih store (fun b2 hb2 => hall b2 (List.mem_cons_of_mem _ hb2))
    rw [runBatches_cons, h1]
    dsimp only
    rw [h2]
    rfl

/-- C1: importing a file and then importing the same file a second time
    against the resulting persisted state writes zero new transactions on
    the second run — every candidate of the second run is caught by the
    duplicate filter's (date, description, amount) identity rule, and the
    store is unchanged. -/
theorem importIdempotent {store : List Doc} {owner : String}
    {rules : List (String × String)} {rows : List RawRow} {s1 : List Doc} {n1 : Nat}
    (h : runImport store owner rules rows = Except.ok (s1, n1)) :
    runImport s1 owner rules rows = Except.ok (s1, 0) := by
  unfold runImport at h ⊢
  cases hn : normalizeAll rules rows with
  | error e =>
    rw [hn] at h
    have h2 : (Except.error e : Except String (List Doc × Nat)) = Except.ok (s1, n1) := h
    exact Except.noConfusion h2
  | ok txs =>
    rw [hn] at h
    have h2 : (Except.ok (runBatches store owner (chunk50 (txs.filter keepTx)))
        : Except String (List Doc × Nat)) = Except.ok (s1, n1) := h
    injection h2 with h2
    have hcov : ∀ b ∈ chunk50 (txs.filter keepTx), coveredBy s1 owner b := by
      intro b hb
      have hc := runBatches_cover owner (chunk50 (txs.filter keepTx)) store b hb
      rw [h2] at hc
      exact hc
    show Except.ok (runBatches s1 owner (chunk50 (txs.filter keepTx))) = Except.ok (s1, 0)
    rw [runBatches_zero owner _ s1 hcov]

/-- C1 witness: a concrete one-row import, replayed against the store it
    produced, writes nothing. -/
theorem importIdempotent_witness :
    runImport [] "u" [] [r1w]
      = Except.ok ([⟨"2024-01-05", "groceries", 3, "Uncategorized", r1w, "u"⟩], 1)
    ∧ runImport [⟨"2024-01-05", "groceries", 3, "Uncategorized", r1w, "u"⟩] "u" [] [r1w]
      = Except.ok ([⟨"2024-01-05", "groceries", 3, "Uncategorized", r1w, "u"⟩], 0) :=
  ⟨rfl, @importIdempotent [] "u" [] [r1w]
    [⟨"2024-01-05", "groceries", 3, "Uncategorized", r1w, "u"⟩] 1 rfl⟩
